import Mathlib

/-!
Verification development for the eden-js user bundle: a shallow embedding of
the user model (src/unnamed/part_000), the user controller
(src/unnamed/part_001) and the client bootstrap
(src/bundles/user/public/js/bootstrap.ts), with theorems settling the
specification claims about them.

The HMAC-SHA256 lowercase-hex digest used by the credential code
(crypto.createHmac followed by update and digest) is modelled as an abstract
function `hmac : String -> String -> String` taking the shared key and the
message; all credential statements are proved for every such function.
JavaScript string values that may be absent (undefined) are modelled as
`Option String`, with `none` standing for undefined.
-/

/-- Stored record of the `user` model: the fields the verified code reads.
`email` and `hash` are the stored e-mail and credential digest
(`this.get('email')`, `this.get('hash')`); `token` is the password-reset
token, `none` when unset. -/
structure UserRec where
  email : String
  hash : String
  token : Option String := none
deriving DecidableEq, Repr

/-- Return value of `User.authenticate` in src/unnamed/part_000: the JS
function returns the literal `true` on success and the object
`(\x7b info : 'Incorrect password', error : true \x7d)` on mismatch. -/
inductive AuthReturn where
  | passed : AuthReturn
  | failed (info : String) (error : Bool) : AuthReturn
deriving DecidableEq, Repr

namespace User

/-- Embedding of `User.authenticate(password)` (src/unnamed/part_000 lines
35-53): compute the keyed digest of the supplied password with the
process-wide `config.get('secret')` and compare it to the stored `hash`
field.  The second component of the result is the user state after the
call; the source performs no mutation, which the embedding makes explicit
by returning the record unchanged. -/
def authenticate (hmac : String → String → String) (secret : String)
    (u : UserRec) (password : String) : AuthReturn × UserRec :=
  let check := hmac secret password
  if check ≠ u.hash then
    (.failed "Incorrect password" true, u)
  else
    (.passed, u)

/-- JavaScript truthiness of a possibly-undefined string: `undefined` and
the empty string are falsy, every other string is truthy. -/
def truthy : Option String → Bool
  | none => false
  | some s => !(s == "")

end User

/-- Executable model of the JavaScript `String.prototype.trim`: drop
whitespace characters from both ends.  (The core `String.trim` is defined
by well-founded recursion and therefore does not evaluate inside `decide`;
this structurally recursive model does.) -/
def jsTrim (s : String) : String :=
  ⟨((s.data.dropWhile Char.isWhitespace).reverse.dropWhile
      Char.isWhitespace).reverse⟩

/-- The length of a string is zero exactly when it is the empty string. -/
theorem string_length_eq_zero_iff (s : String) : s.length = 0 ↔ s = "" := by
  cases s with
  | mk d =>
    cases d with
    | nil => simp
    | cons c cs =>
      constructor
      · intro h
        simp [String.length] at h
      · intro h
        have := congrArg String.data h
        simp at this

namespace User

/-- JavaScript `a || b` on possibly-undefined strings. -/
def jsOr (a b : Option String) : Option String :=
  if truthy a then a else b

/-- Embedding of `User.name()` (src/unnamed/part_000 lines 60-66):
`name = this.get('name') || (first || '') ++ ' ' ++ (last || '')`, then
return `(!name.trim().length ? (username || email) : name).trim()`.
The result is `none` exactly when the source would call `.trim()` on
`undefined` (both `username` and `email` falsy) and throw. -/
def name (nm first last username email : Option String) : Option String :=
  let n : String :=
    if truthy nm then nm.getD ""
    else (first.getD "") ++ " " ++ (last.getD "")
  if (jsTrim n).length == 0 then (jsOr username email).map jsTrim
  else some (jsTrim n)

end User

/-- The display-name rule exactly as the claim words it: the first candidate
among the explicit name, the space-joined first+last, the username and the
email that is present and non-empty once trimmed, returned trimmed. -/
def claimedName (nm first last username email : Option String) : Option String :=
  let cands := [nm, some ((first.getD "") ++ " " ++ (last.getD "")), username, email]
  (cands.find? (fun c => match c with
    | some s => !(jsTrim s == "")
    | none => false)).bind (fun c => c.map jsTrim)

/-- The display-name rule the source actually implements: the trimmed
explicit name when it is a non-empty string with non-whitespace content;
otherwise, when the explicit name is absent or empty, the trimmed
space-joined first+last when it has non-whitespace content; otherwise the
trimmed username when the username is a non-empty string (even a
whitespace-only one, which yields the empty result); otherwise the trimmed
email; undefined when username and email are both absent or empty. -/
def amendedName (nm first last username email : Option String) : Option String :=
  if User.truthy nm then
    if jsTrim (nm.getD "") == "" then (User.jsOr username email).map jsTrim
    else some (jsTrim (nm.getD ""))
  else
    let fl := (first.getD "") ++ " " ++ (last.getD "")
    if jsTrim fl == "" then (User.jsOr username email).map jsTrim
    else some (jsTrim fl)

/-- C2: for every digest function, shared secret, user record and supplied
password, `User.authenticate` returns `true` exactly when the keyed digest
of the supplied password equals the stored digest; on mismatch it returns
the typed failure with info `"Incorrect password"` and the error flag set;
in both cases it is a total function (never throws) that returns the
Principal's state unchanged. -/
theorem authenticate_spec (hmac : String → String → String) (secret : String)
    (u : UserRec) (password : String) :
    (User.authenticate hmac secret u password =
      (if hmac secret password = u.hash then AuthReturn.passed
       else AuthReturn.failed "Incorrect password" true, u))
    ∧ ((User.authenticate hmac secret u password).1 = AuthReturn.passed ↔
        hmac secret password = u.hash) := by
  unfold User.authenticate
  by_cases h : hmac secret password = u.hash <;> simp [h]

/-- C9 counterexample: with no explicit name, no first or last name, a
whitespace-only username and a real email, the source returns the empty
string (it selects the truthy whitespace username and trims it), while the
claimed first-non-empty-trimmed rule would return the email. -/
theorem name_claim_counterexample :
    User.name none none none (some "  ") (some "e@x.com") = some "" ∧
    claimedName none none none (some "  ") (some "e@x.com") = some "e@x.com" ∧
    User.name none none none (some "  ") (some "e@x.com") ≠
      claimedName none none none (some "  ") (some "e@x.com") := by
  refine ⟨?_, ?_, ?_⟩ <;> decide

/-- C9 amended: for all field values, `User.name` agrees with the amended
display-name rule: trimmed explicit name when truthy and non-whitespace;
else (only when the explicit name is falsy) the trimmed first+last join
when non-whitespace; else the trimmed username when truthy, even if
whitespace-only; else the trimmed email; undefined when both fallbacks are
falsy. -/
theorem name_amended (nm first last username email : Option String) :
    User.name nm first last username email =
      amendedName nm first last username email := by
  unfold User.name amendedName
  by_cases h : User.truthy nm
  · simp only [h, if_true]
    by_cases h2 : jsTrim (nm.getD "") = ""
    · have hl : (jsTrim (nm.getD "")).length = 0 :=
        (string_length_eq_zero_iff _).mpr h2
      simp [h2, hl]
    · have hl : ¬ (jsTrim (nm.getD "")).length = 0 := fun hc =>
        h2 ((string_length_eq_zero_iff _).mp hc)
      simp [h2, hl]
  · simp only [h, if_false, Bool.false_eq_true]
    by_cases h2 : jsTrim ((first.getD "") ++ " " ++ (last.getD "")) = ""
    · have hl : (jsTrim ((first.getD "") ++ " " ++ (last.getD ""))).length = 0 :=
        (string_length_eq_zero_iff _).mpr h2
      simp [h2, hl]
    · have hl : ¬ (jsTrim ((first.getD "") ++ " " ++ (last.getD ""))).length = 0 :=
        fun hc => h2 ((string_length_eq_zero_iff _).mp hc)
      simp [h2, hl]

/-- Witness for the C2 theorem at a concrete digest function, secret, user
and password. -/
theorem authenticate_spec_witness :
    ((User.authenticate (fun k m => k ++ ":" ++ m) "s"
        { email := "a@b", hash := "s:pw" } "pw").1 = AuthReturn.passed ↔
      (fun (k m : String) => k ++ ":" ++ m) "s" "pw" = "s:pw") :=
  (authenticate_spec (fun k m => k ++ ":" ++ m) "s"
    { email := "a@b", hash := "s:pw" } "pw").2

/-! ## Controller authentication (src/unnamed/part_001, `_authenticate`) -/

/-- Outcome of the passport `_authenticate` callback in
src/unnamed/part_001 lines 703-729, as delivered through `done`:
`done(null, false, (user: false, message: 'User not found'))`,
`done(null, false, (user, message: result.info))`, or `done(null, user)`. -/
inductive AuthResult where
  | userNotFound (message : String)
  | invalidCredential (user : UserRec) (message : String)
  | success (user : UserRec)
deriving DecidableEq, Repr

/-- Per-character lower-casing of a string, the executable model of
case-insensitive comparison under the regular-expression `i` flag. -/
def lcase (s : String) : String :=
  ⟨s.data.map Char.toLower⟩

/-- Whether a stored Principal's email matches the authentication input.
The source builds `new RegExp('^' ++ escapeRegex(email) ++ '$', 'i')`:
anchored at both ends with every metacharacter escaped, an `i`-flagged
regular expression that accepts exactly the case-insensitive full-string
equals of the input. -/
def emailMatches (input : String) (u : UserRec) : Bool :=
  lcase u.email == lcase input

/-- Embedding of `_authenticate(email, password, done)`
(src/unnamed/part_001 lines 703-729): `User.match('email', regex).findOne()`
resolves the first stored Principal whose email matches; absent a match the
callback reports `'User not found'`; otherwise `user.authenticate(password)`
either rejects with its `info` text and the resolved user, or accepts. -/
def _authenticate (hmac : String → String → String) (secret : String)
    (store : List UserRec) (email password : String) : AuthResult :=
  match store.find? (emailMatches email) with
  | none => .userNotFound "User not found"
  | some user =>
    match User.authenticate hmac secret user password with
    | (.passed, _) => .success user
    | (.failed info _, _) => .invalidCredential user info

/-- The Principal an authentication outcome resolved, if any: both the
success and the wrong-password outcome carry the resolved user, the
not-found outcome carries none. -/
def resolvedUser : AuthResult → Option UserRec
  | .userNotFound _ => none
  | .invalidCredential u _ => some u
  | .success u => some u

/-- C1: `_authenticate` resolves a Principal exactly when some stored
Principal's email equals the input email case-insensitively as a full
string (the escaped anchored regex); with no match it fails with
`'User not found'`; with a match and a wrong password it fails with the
verifier's reason `'Incorrect password'` carrying the resolved user, never
the not-found outcome; with the right password it succeeds with that
Principal. -/
theorem authenticate_resolution (hmac : String → String → String)
    (secret : String) (store : List UserRec) (email password : String) :
    ((resolvedUser (_authenticate hmac secret store email password)).isSome ↔
        ∃ u ∈ store, emailMatches email u = true)
    ∧ (∀ u, resolvedUser (_authenticate hmac secret store email password) = some u →
        u ∈ store ∧ emailMatches email u = true)
    ∧ (store.find? (emailMatches email) = none →
        _authenticate hmac secret store email password =
          .userNotFound "User not found")
    ∧ (∀ u, store.find? (emailMatches email) = some u →
        (hmac secret password = u.hash →
          _authenticate hmac secret store email password = .success u)
        ∧ (hmac secret password ≠ u.hash →
          _authenticate hmac secret store email password =
            .invalidCredential u "Incorrect password")) := by
  cases hfind : store.find? (emailMatches email) with
  | none =>
    have hnone : ∀ u ∈ store, ¬ emailMatches email u = true :=
      fun u hu => by
        have := List.find?_eq_none.mp hfind u hu
        simpa using this
    refine ⟨?_, ?_, ?_, ?_⟩
    · simp only [_authenticate, hfind, resolvedUser]
      constructor
      · intro h; simp at h
      · rintro ⟨u, hu, hm⟩; exact absurd hm (hnone u hu)
    · intro u hu
      simp only [_authenticate, hfind, resolvedUser] at hu
      exact Option.noConfusion hu
    · intro _; simp [_authenticate, hfind]
    · intro u hu; exact Option.noConfusion hu
  | some u =>
    have hmem : u ∈ store := List.mem_of_find?_eq_some hfind
    have hmatch : emailMatches email u = true := List.find?_some hfind
    by_cases hpw : hmac secret password = u.hash
    · have hrun : _authenticate hmac secret store email password = .success u := by
        simp [_authenticate, hfind, User.authenticate, hpw]
      refine ⟨?_, ?_, ?_, ?_⟩
      · simp only [hrun, resolvedUser]
        exact ⟨fun _ => ⟨u, hmem, hmatch⟩, fun _ => rfl⟩
      · intro v hv
        simp only [hrun, resolvedUser, Option.some.injEq] at hv
        subst hv; exact ⟨hmem, hmatch⟩
      · intro hnone; exact Option.noConfusion hnone
      · intro v hv
        injection hv with hv; subst hv
        exact ⟨fun _ => hrun, fun hne => absurd hpw hne⟩
    · have hrun : _authenticate hmac secret store email password =
          .invalidCredential u "Incorrect password" := by
        simp [_authenticate, hfind, User.authenticate, hpw]
      refine ⟨?_, ?_, ?_, ?_⟩
      · simp only [hrun, resolvedUser]
        exact ⟨fun _ => ⟨u, hmem, hmatch⟩, fun _ => rfl⟩
      · intro v hv
        simp only [hrun, resolvedUser, Option.some.injEq] at hv
        subst hv; exact ⟨hmem, hmatch⟩
      · intro hnone; exact Option.noConfusion hnone
      · intro v hv
        injection hv with hv; subst hv
        exact ⟨fun heq => absurd heq hpw, fun _ => hrun⟩

/-- Witness for the C1 theorem: a one-user store where the input email
differs from the stored email only in case, exercised with the right
password, a wrong password, and against the empty store. -/
theorem authenticate_resolution_witness :
    _authenticate (fun k m => k ++ ":" ++ m) "s"
        [{ email := "A@B.com", hash := "s:pw" }] "a@b.COM" "pw" =
      .success { email := "A@B.com", hash := "s:pw" }
    ∧ _authenticate (fun k m => k ++ ":" ++ m) "s"
        [{ email := "A@B.com", hash := "s:pw" }] "a@b.COM" "bad" =
      .invalidCredential { email := "A@B.com", hash := "s:pw" } "Incorrect password"
    ∧ _authenticate (fun k m => k ++ ":" ++ m) "s" [] "a@b.COM" "pw" =
      .userNotFound "User not found" :=
  ⟨((authenticate_resolution (fun k m => k ++ ":" ++ m) "s"
      [{ email := "A@B.com", hash := "s:pw" }] "a@b.COM" "pw").2.2.2
      { email := "A@B.com", hash := "s:pw" } (by decide)).1 (by decide),
   ((authenticate_resolution (fun k m => k ++ ":" ++ m) "s"
      [{ email := "A@B.com", hash := "s:pw" }] "a@b.COM" "bad").2.2.2
      { email := "A@B.com", hash := "s:pw" } (by decide)).2 (by decide),
   (authenticate_resolution (fun k m => k ++ ":" ++ m) "s" [] "a@b.COM"
      "pw").2.2.1 (by decide)⟩

/-! ## Client bootstrap (src/bundles/user/public/js/bootstrap.ts) -/

/-- Internal state of the client `EdenUser` singleton: the private
`__data` map of user fields and the `__fields` bookkeeping list.  Nested
`dot-prop` paths are modelled as flat string keys. -/
structure EdenUserState where
  data : List (String × String)
  fields : List String
deriving DecidableEq, Repr

/-- A value delivered to `EdenUser.__update` over the socket `user`
channel: another EdenUser entity (a value carrying a `__data` field), the
literal `false` pushed on logout, or a plain user payload object. -/
inductive UserPush where
  | entity : UserPush
  | noUser : UserPush
  | payload (kvs : List (String × String)) : UserPush

namespace EdenUser

/-- Embedding of `EdenUser.get(key)` restricted to flat keys: look the key
up in `__data`, yielding `none` for `undefined`. -/
def get (st : EdenUserState) (key : String) : Option String :=
  (st.data.find? (fun p => p.1 == key)).map (fun p => p.2)

/-- Embedding of `EdenUser.clear()` (bootstrap.ts lines 140-143): reset
`__data` to the empty object; `__fields` and listeners are untouched and
nothing is emitted. -/
def clear (st : EdenUserState) : EdenUserState :=
  { st with data := [] }

/-- Embedding of `EdenUser.exists()` (bootstrap.ts lines 150-153): the
double-negated truthiness of `this.get('_id')`. -/
def existsUser (st : EdenUserState) : Bool :=
  User.truthy (get st "_id")

/-- Embedding of `EdenUser.set(key, value)` for flat keys: write the key
into `__data`, record it in `__fields` if new, and emit the per-key event
(the dotted-prefix re-emit does not fire for flat keys).  Returns the new
state together with the names of the events emitted. -/
def set (st : EdenUserState) (key value : String) : EdenUserState × List String :=
  (⟨(key, value) :: st.data.filter (fun p => !(p.1 == key)),
    if st.fields.contains key then st.fields else st.fields ++ [key]⟩,
   [key])

/-- Embedding of `EdenUser.__update(user)` (bootstrap.ts lines 174-198).
An entity argument returns immediately; the explicit no-user value `false`
is falsy, so the method returns `this.clear()` before reaching the
per-field loop or the final `emit('update')` (in JavaScript, reading the
`__data` property of `false` yields `undefined`, so the first guard does
not fire).  A payload object sets every key whose serialized value
changed, records every key in `__fields`, and finally emits `update`.
The second component lists the events emitted. -/
def __update (st : EdenUserState) (u : UserPush) : EdenUserState × List String :=
  match u with
  | .entity => (st, [])
  | .noUser => (clear st, [])
  | .payload kvs =>
    let stepped := kvs.foldl
      (fun (acc : EdenUserState × List String) kv =>
        let st' := acc.1
        let evs := acc.2
        let afterSet :=
          if get st' kv.1 == some kv.2 then (st', evs)
          else
            let r := set st' kv.1 kv.2
            (r.1, evs ++ r.2)
        (⟨afterSet.1.data,
          if afterSet.1.fields.contains kv.1 then afterSet.1.fields
          else afterSet.1.fields ++ [kv.1]⟩,
         afterSet.2))
      (st, [])
    (stepped.1, stepped.2 ++ ["update"])

end EdenUser

/-- C10: delivering the explicit no-user value `false` over the socket
`user` channel makes `EdenUser.__update` reset the internal data to the
empty object, after which `exists()` returns `false`; the clearing emits
no per-field event and no `update` event. -/
theorem update_false_clears (st : EdenUserState) :
    EdenUser.__update st .noUser = ({ st with data := [] }, [])
    ∧ EdenUser.existsUser (EdenUser.__update st .noUser).1 = false := by
  constructor
  · rfl
  · simp [EdenUser.__update, EdenUser.clear, EdenUser.existsUser, EdenUser.get,
      User.truthy]

/-! ## Acl bootstrap and registration hook (src/unnamed/part_001) -/

/-- An Acl policy record or configured policy-record entry: a unique name
with a policy payload.  `new Acl(acl)` copies the entry into a record. -/
structure AclData where
  name : String
  payload : String := ""
deriving DecidableEq, Repr

/-- Embedding of `Acl.findOne(( name : nm ))`: the first stored record with
the given name. -/
def findAcl (store : List AclData) (nm : String) : Option AclData :=
  store.find? (fun r => r.name == nm)

/-- Number of stored Acl records with the given name, the embedding of
`Acl.count(( name : nm ))`. -/
def countName (nm : String) (store : List AclData) : Nat :=
  store.countP (fun r => r.name == nm)

/-- The lookup loop of `_register` (src/unnamed/part_001 lines 661-669):
for each configured entry load `Acl.findOne` by name, keeping the record
when it exists. -/
def collectAcls (store : List AclData) : List AclData → List AclData
  | [] => []
  | a :: rest =>
    match findAcl store a.name with
    | some check => check :: collectAcls store rest
    | none => collectAcls store rest

/-- Embedding of the `user.register` pre-hook `_register`
(src/unnamed/part_001 lines 643-673): copy `config.get('acl.default')`,
append `config.get('acl.admin')` exactly when `User.count()` was zero,
resolve each name against the Acl store, and return the list set as the
new Principal's `acl` field. -/
def _register (store : List AclData) (deflt admin : List AclData)
    (count : Nat) : List AclData :=
  let chosen := if count = 0 then deflt ++ admin else deflt
  collectAcls store chosen

/-- One step of the `_acl` bootstrap (src/unnamed/part_001 lines 602-616):
count records with the entry's name and create the record only when none
exists. -/
def aclSeedStep (store : List AclData) (a : AclData) : List AclData :=
  if countName a.name store = 0 then store ++ [a] else store

/-- Embedding of the Acl bootstrap `_acl` (src/unnamed/part_001 lines
591-617): seed every entry of the configured default list followed by the
admin list, creating a record only where the name is absent. -/
def _acl (store : List AclData) (deflt admin : List AclData) : List AclData :=
  (deflt ++ admin).foldl aclSeedStep store

theorem collectAcls_eq_filterMap (store : List AclData) (l : List AclData) :
    collectAcls store l = l.filterMap (fun a => findAcl store a.name) := by
  induction l with
  | nil => rfl
  | cons a rest ih =>
    cases h : findAcl store a.name <;>
      simp [collectAcls, h, List.filterMap_cons, ih]

theorem mem_of_findAcl (store : List AclData) (nm : String) (r : AclData)
    (h : findAcl store nm = some r) : r ∈ store :=
  List.mem_of_find?_eq_some h

/-- C7: in the `user.register` pre-hook, with a prior Principal count of
zero the new Principal's acl field is the resolution of the default list
followed by the admin list, otherwise of the default list alone; and every
attached record is an already-existing record of the Acl store. -/
theorem register_acl_assignment (store deflt admin : List AclData)
    (count : Nat) :
    _register store deflt admin count =
      (if count = 0 then deflt ++ admin else deflt).filterMap
        (fun a => findAcl store a.name)
    ∧ (∀ r ∈ _register store deflt admin count, r ∈ store) := by
  refine ⟨by simp [_register, collectAcls_eq_filterMap], ?_⟩
  intro r hr
  simp only [_register, collectAcls_eq_filterMap, List.mem_filterMap] at hr
  obtain ⟨a, _, ha⟩ := hr
  exact mem_of_findAcl store a.name r ha

/-- Witness for the C7 theorem: with zero prior users and a store holding
only the default record, the hook attaches exactly the default record,
which is a member of the store; the admin entry resolves to nothing. -/
theorem register_acl_assignment_witness :
    ({ name := "user" } : AclData) ∈ ([{ name := "user" }] : List AclData) :=
  (register_acl_assignment [{ name := "user" }] [{ name := "user" }]
      [{ name := "admin" }] 0).2 { name := "user" } (by decide)

theorem countName_append (nm : String) (s t : List AclData) :
    countName nm (s ++ t) = countName nm s + countName nm t := by
  simp [countName, List.countP_append]

theorem countName_aclSeedStep (s : List AclData) (a : AclData) (n : String) :
    countName n (aclSeedStep s a) =
      if countName a.name s = 0 ∧ a.name = n then 1 else countName n s := by
  unfold aclSeedStep
  by_cases h1 : countName a.name s = 0
  · rw [if_pos h1, countName_append]
    by_cases h2 : a.name = n
    · subst h2
      rw [if_pos ⟨h1, rfl⟩, h1]
      simp [countName, List.countP_cons]
    · have : countName n [a] = 0 := by
        simp [countName, List.countP_cons, h2]
      simp [this, h1, h2]
  · rw [if_neg h1]
    rw [if_neg (fun hc => h1 hc.1)]

theorem countName_foldl_seed (l : List AclData) (s : List AclData)
    (n : String) :
    countName n (l.foldl aclSeedStep s) =
      if countName n s = 0 ∧ l.any (fun x => x.name == n) then 1
      else countName n s := by
  induction l generalizing s with
  | nil => simp
  | cons a l ih =>
    rw [List.foldl_cons, ih, countName_aclSeedStep]
    by_cases h2 : a.name = n
    · subst h2
      by_cases h1 : countName a.name s = 0
      · simp [h1]
      · simp [h1]
    · have hne : (a.name == n) = false := by simp [h2]
      by_cases h1 : countName a.name s = 0 <;>
        simp [h1, h2, hne, List.any_cons]

theorem foldl_seed_no_create (l : List AclData) (s : List AclData)
    (h : ∀ a ∈ l, countName a.name s ≠ 0) :
    l.foldl aclSeedStep s = s := by
  induction l with
  | nil => rfl
  | cons a l ih =>
    rw [List.foldl_cons]
    have hstep : aclSeedStep s a = s := by
      unfold aclSeedStep
      rw [if_neg (h a (List.mem_cons_self a l))]
    rw [hstep]
    exact ih (fun b hb => h b (List.mem_cons_of_mem a hb))

theorem foldl_seed_prefix (l : List AclData) (s : List AclData) :
    ∃ t, l.foldl aclSeedStep s = s ++ t := by
  induction l generalizing s with
  | nil => exact ⟨[], by simp⟩
  | cons a l ih =>
    rw [List.foldl_cons]
    unfold aclSeedStep
    by_cases h1 : countName a.name s = 0
    · rw [if_pos h1]
      obtain ⟨t, ht⟩ := ih (s ++ [a])
      exact ⟨[a] ++ t, by simpa [List.append_assoc] using ht⟩
    · rw [if_neg h1]
      exact ih s

/-- C8: the Acl bootstrap is idempotent: running `_acl` a second time with
the same configured default and admin lists leaves the store exactly as
one run left it; after one run each configured name has exactly one record
when it had none and its prior count otherwise (so a name is created at
most once and never duplicated); and a run only appends, never rewriting
the existing records. -/
theorem acl_bootstrap_idempotent (s deflt admin : List AclData) :
    _acl (_acl s deflt admin) deflt admin = _acl s deflt admin
    ∧ (∀ n, countName n (_acl s deflt admin) =
        if countName n s = 0 ∧ (deflt ++ admin).any (fun x => x.name == n)
        then 1 else countName n s)
    ∧ ∃ t, _acl s deflt admin = s ++ t := by
  refine ⟨?_, ?_, ?_⟩
  · unfold _acl
    apply foldl_seed_no_create
    intro a ha
    rw [countName_foldl_seed]
    have hany : (deflt ++ admin).any (fun x => x.name == a.name) = true := by
      simp only [List.any_eq_true]
      exact ⟨a, ha, by simp⟩
    by_cases h0 : countName a.name s = 0
    · simp [h0, hany]
    · simp [h0]
  · intro n
    exact countName_foldl_seed (deflt ++ admin) s n
  · exact foldl_seed_prefix (deflt ++ admin) s

/-! ## Registration submit and the register hook (src/unnamed/part_001) -/

/-- The shared mutable payload handed to `user.register` pre-handlers:
the `error` veto flag the handlers may set, and the candidate Principal
they may adjust.  The request object plays no role in the verified
behaviour. -/
structure RegPayload where
  error : Bool
  user : UserRec

/-- Modelled from the spec: the interceptable `pre` chain of the eden
EventBus (its implementation is not part of this repository).  Handlers
run in registration order against the shared payload, and a handler that
sets the error/prevented flag short-circuits the remaining handlers. -/
def runPre : List (RegPayload → RegPayload) → RegPayload → RegPayload
  | [], p => p
  | h :: rest, p =>
    let p' := h p
    if p'.error then p' else runPre rest p'

/-- Effects of the registration finalizer and the surrounding closure: the
closure-local `prevented` flag, whether the error page was rendered, and
whether and into what store the candidate was saved. -/
structure FinEffects where
  prevented : Bool
  surfaced : Bool
  saved : Bool
  store : List UserRec
deriving DecidableEq, Repr

/-- Modelled from the spec: `eden.hook(eventName, payload, finalizer)`
(implementation not part of this repository) runs all pre-handlers
sequentially against the payload and then, only if the payload was not
prevented, invokes the finalizer on it and returns its result; if
prevented, the finalizer is never invoked and the caller observes the
`skipped` effects, with the closure state untouched. -/
def hookRun (handlers : List (RegPayload → RegPayload)) (p0 : RegPayload)
    (fin : RegPayload → FinEffects) (skipped : FinEffects) : FinEffects :=
  let p := runPre handlers p0
  if p.error then skipped else fin p

/-- Observable outcome of one `registerSubmitAction` call:
`validationError` carries the message of a failed local validation;
`saved` records whether `user.save` ran; `loggedIn`, `loginEmitted` and
`sessionPushed` record the `req.login` branch with its `user.login` emit
and sanitized session push; `errorSurfaced` records the error re-render
issued from inside the hook finalizer. -/
structure RegOutcome where
  validationError : Option String
  saved : Bool
  loggedIn : Bool
  loginEmitted : Bool
  sessionPushed : Bool
  errorSurfaced : Bool
deriving DecidableEq, Repr

/-- Outcome of a failed local validation: nothing persisted, nothing
emitted, the field-level message rendered. -/
def regValidationError (msg : String) : RegOutcome :=
  { validationError := some msg, saved := false, loggedIn := false,
    loginEmitted := false, sessionPushed := false, errorSurfaced := false }

/-- Embedding of `registerSubmitAction(req, res)` (src/unnamed/part_001
lines 470-586): the four local validations in source order (email length,
email already taken via the case-insensitive anchored regex, password
length, confirmation match), then the credential digest, then
`eden.hook('user.register', payload, finalizer)` where the finalizer
checks the payload's error flag (setting the closure-local `prevented`
and re-rendering) and otherwise saves the candidate, and finally the
`if (!prevented)` login branch that calls `req.login`, emits `user.login`
and pushes the sanitized user over the session channel. -/
def registerSubmitAction (handlers : List (RegPayload → RegPayload))
    (hmac : String → String → String) (secret : String)
    (store : List UserRec) (email password passwordb : String) :
    RegOutcome × List UserRec :=
  if (jsTrim email).length < 5 then
    (regValidationError "your email must be at least 5 characters long", store)
  else if (store.find? (emailMatches email)).isSome then
    (regValidationError "the email is already taken", store)
  else if (jsTrim password).length < 5 then
    (regValidationError "your password must be at least 5 characters long", store)
  else if password ≠ passwordb then
    (regValidationError "your passwords do not match", store)
  else
    let cand : UserRec := { email := email, hash := hmac secret password }
    let eff := hookRun handlers { error := false, user := cand }
      (fun p =>
        if p.error then
          { prevented := true, surfaced := true, saved := false, store := store }
        else
          { prevented := false, surfaced := false, saved := true,
            store := store ++ [p.user] })
      { prevented := false, surfaced := false, saved := false, store := store }
    ({ validationError := none,
       saved := eff.saved,
       loggedIn := !eff.prevented,
       loginEmitted := !eff.prevented,
       sessionPushed := !eff.prevented,
       errorSurfaced := eff.surfaced }, eff.store)

/-- C3, failing input: a locally valid registration against an empty store
with a single `user.register` pre-handler that sets the error/prevented
flag.  The candidate is indeed never saved, but because the prevented hook
never invokes the finalizer, the closure-local `prevented` flag stays
false: the session is still logged in, `user.login` is still emitted, the
sanitized user is still pushed, and no error is surfaced — contradicting
the claimed abort. -/
theorem registerSubmit_error_hook_still_logs_in :
    registerSubmitAction [fun p => { p with error := true }]
        (fun k m => k ++ ":" ++ m) "s" [] "a@b.com" "secret" "secret" =
      ({ validationError := none, saved := false, loggedIn := true,
         loginEmitted := true, sessionPushed := true, errorSurfaced := false },
       []) := by
  decide

/-! ## Password reset completion (src/unnamed/part_001, resetSubmitAction) -/

/-- Observable outcome of one `resetSubmitAction` call, in source order:
missing token redirect, unknown token alert, password-length re-render,
confirmation-mismatch re-render, or the successful save-and-redirect. -/
inductive ResetOutcome where
  | redirectForgot
  | invalidToken
  | passwordTooShort
  | passwordMismatch
  | success
deriving DecidableEq, Repr

/-- Replace the first record satisfying the predicate, the embedding of a
`findOne` followed by `set` and `save` on the found record. -/
def updateFirst (p : UserRec → Bool) (f : UserRec → UserRec) :
    List UserRec → List UserRec
  | [] => []
  | u :: rest => if p u then f u :: rest else u :: updateFirst p f rest

/-- Embedding of `resetSubmitAction(req, res)` (src/unnamed/part_001 lines
296-352): redirect when the submitted token is falsy; resolve
`User.findOne((token))` and reject an unknown token; validate the new
password's trimmed length and the confirmation match; then store the new
keyed digest on the resolved user and save.  The stored `token` field is
not touched anywhere on this path. -/
def resetSubmitAction (hmac : String → String → String) (secret : String)
    (store : List UserRec) (token password passwordb : String) :
    ResetOutcome × List UserRec :=
  if token == "" then (.redirectForgot, store)
  else
    match store.find? (fun u => u.token == some token) with
    | none => (.invalidToken, store)
    | some _ =>
      if (jsTrim password).length < 5 then (.passwordTooShort, store)
      else if password ≠ passwordb then (.passwordMismatch, store)
      else
        (.success,
         updateFirst (fun u => u.token == some token)
           (fun u => { u with hash := hmac secret password }) store)

/-- C6, failing input: a Principal holding reset token `tok`, reset
completed successfully with the new password `hello`.  The saved record
keeps `tok` as its token, and submitting the very same token a second time
still resolves the Principal and succeeds again — the token is not
single-use. -/
theorem resetSubmit_token_reusable :
    resetSubmitAction (fun k m => k ++ ":" ++ m) "s"
        [{ email := "a@b.com", hash := "h0", token := some "tok" }]
        "tok" "hello" "hello" =
      (.success, [{ email := "a@b.com", hash := "s:hello", token := some "tok" }])
    ∧ resetSubmitAction (fun k m => k ++ ":" ++ m) "s"
        [{ email := "a@b.com", hash := "s:hello", token := some "tok" }]
        "tok" "world" "world" =
      (.success, [{ email := "a@b.com", hash := "s:world", token := some "tok" }]) := by
  constructor <;> decide

/-! ## Sanitised projection (src/unnamed/part_000, `User.sanitise`) -/

mutual
/-- A value stored under a user attribute, in the shapes the sanitiser's
cascade handles: a primitive, a sanitisable collaborator (a model object
exposing `sanitise`, itself a bag of attributes), or an array whose
elements are primitives or sanitisable collaborators. -/
inductive FieldVal : Type where
  | prim (s : String)
  | collab (attrs : List (String × FieldVal))
  | arr (elems : List ArrElem)

/-- An element of an attribute array: `val.sanitise ? val.sanitise() : val`
distinguishes only sanitisable collaborators from plain values. -/
inductive ArrElem : Type where
  | aprim (s : String)
  | acollab (attrs : List (String × FieldVal))
end

/-- A value of the sanitised projection: `null`/`undefined`, a primitive,
an object, or an array. -/
inductive SVal : Type where
  | null
  | prim (s : String)
  | obj (kvs : List (String × SVal))
  | arr (elems : List SVal)

/-- Look an attribute up on a user's state, the embedding of
`this.get(key)` with `none` for `undefined`. -/
def lookupAttr (attrs : List (String × FieldVal)) (k : String) :
    Option FieldVal :=
  (attrs.find? (fun p => p.1 == k)).map (fun p => p.2)

/-- The attribute as a string when it holds a primitive, `none`
otherwise. -/
def getStr (attrs : List (String × FieldVal)) (k : String) : Option String :=
  match lookupAttr attrs k with
  | some (.prim s) => some s
  | _ => none

/-- Lift a possibly-absent primitive into a projection value. -/
def primOrNull : Option String → SVal
  | some s => .prim s
  | none => .null

/-- The id the sanitiser renders: `this.get('_id') ? toString() : null`,
with empty-string ids falsy. -/
def jsIdStr (attrs : List (String × FieldVal)) : Option String :=
  match getStr attrs "_id" with
  | some s => if s == "" then none else some s
  | none => none

/-- The five fixed pairs the sanitiser always includes
(src/unnamed/part_000 lines 102-108): `id`, `_id`, `name` via
`this.name()`, `created_at` and `updated_at` (timestamps are primitive
values). -/
def basePairs (attrs : List (String × FieldVal)) : List (String × SVal) :=
  [("id", primOrNull (jsIdStr attrs)),
   ("_id", primOrNull (jsIdStr attrs)),
   ("name", primOrNull (User.name (getStr attrs "name") (getStr attrs "first")
      (getStr attrs "last") (getStr attrs "username") (getStr attrs "email"))),
   ("created_at", primOrNull (getStr attrs "created_at")),
   ("updated_at", primOrNull (getStr attrs "updated_at"))]

mutual
/-- Embedding of `User.sanitise()` (src/unnamed/part_000 lines 100-134):
the five fixed pairs followed by one pair per configured public field
(`config.get('user.fields')`), each resolved from the user's attributes
through the sanitising cascade.  The trailing `user.sanitise` hook has no
pre-handler registered anywhere in this repository and therefore leaves
the object unchanged.  `fuel` bounds the nesting depth the recursion
descends; every statement proved about it holds for every fuel. -/
def sanitiseUser (fuel : Nat) (fields : List String)
    (attrs : List (String × FieldVal)) : List (String × SVal) :=
  basePairs attrs ++
    fields.map (fun f => (f, sanitiseField fuel fields (lookupAttr attrs f)))
termination_by (fuel, 1)

/-- The per-field cascade of `User.sanitise`: an absent attribute stays
absent, a primitive passes through, a sanitisable collaborator is replaced
by its own sanitised projection, and an array maps the collaborator
elements through their sanitisers while passing primitives through. -/
def sanitiseField : Nat → List String → Option FieldVal → SVal
  | _, _, none => .null
  | _, _, some (.prim s) => .prim s
  | 0, _, some (.collab _) => .null
  | Nat.succ fm, fields, some (.collab a2) =>
    .obj (sanitiseUser fm fields a2)
  | 0, _, some (.arr es) =>
    .arr (es.map (fun e => match e with
      | .aprim s => SVal.prim s
      | .acollab _ => SVal.null))
  | Nat.succ fm, fields, some (.arr es) =>
    .arr (es.map (fun e => match e with
      | .aprim s => SVal.prim s
      | .acollab a2 => SVal.obj (sanitiseUser fm fields a2)))
termination_by fuel _ _ => (fuel, 0)
end

/-- A key occurs somewhere in a projection value: as a key of an object
node, or inside any nested object or array. -/
inductive HasKey (k : String) : SVal → Prop where
  | here {kvs : List (String × SVal)} {v : SVal} :
      (k, v) ∈ kvs → HasKey k (SVal.obj kvs)
  | inObj {kvs : List (String × SVal)} {k2 : String} {v : SVal} :
      (k2, v) ∈ kvs → HasKey k v → HasKey k (SVal.obj kvs)
  | inArr {es : List SVal} {v : SVal} :
      v ∈ es → HasKey k v → HasKey k (SVal.arr es)

theorem not_hasKey_null (bad : String) : ¬ HasKey bad SVal.null :=
  fun h => nomatch h

theorem not_hasKey_prim (bad s : String) : ¬ HasKey bad (SVal.prim s) :=
  fun h => nomatch h

theorem not_hasKey_primOrNull (bad : String) (o : Option String) :
    ¬ HasKey bad (primOrNull o) := by
  cases o with
  | none => exact not_hasKey_null bad
  | some s => exact not_hasKey_prim bad s

theorem sanitiseField_zero_no_key (bad : String) (fields : List String)
    (ov : Option FieldVal) : ¬ HasKey bad (sanitiseField 0 fields ov) := by
  intro h
  match ov with
  | none =>
    simp only [sanitiseField] at h
    exact not_hasKey_null bad h
  | some (.prim s) =>
    simp only [sanitiseField] at h
    exact not_hasKey_prim bad s h
  | some (.collab a2) =>
    simp only [sanitiseField] at h
    exact not_hasKey_null bad h
  | some (.arr es) =>
    simp only [sanitiseField] at h
    cases h with
    | inArr hw hk =>
      obtain ⟨e, he, rfl⟩ := List.mem_map.mp hw
      cases e with
      | aprim s => exact not_hasKey_prim bad s hk
      | acollab a2 => exact not_hasKey_null bad hk

theorem sanitiseField_succ_no_key (bad : String) (fields : List String)
    (fm : Nat)
    (ih : ∀ attrs, ¬ HasKey bad (SVal.obj (sanitiseUser fm fields attrs)))
    (ov : Option FieldVal) :
    ¬ HasKey bad (sanitiseField (fm + 1) fields ov) := by
  intro h
  match ov with
  | none =>
    simp only [sanitiseField] at h
    exact not_hasKey_null bad h
  | some (.prim s) =>
    simp only [sanitiseField] at h
    exact not_hasKey_prim bad s h
  | some (.collab a2) =>
    simp only [sanitiseField] at h
    exact ih a2 h
  | some (.arr es) =>
    simp only [sanitiseField] at h
    cases h with
    | inArr hw hk =>
      obtain ⟨e, he, rfl⟩ := List.mem_map.mp hw
      cases e with
      | aprim s => exact not_hasKey_prim bad s hk
      | acollab a2 => exact ih a2 hk

theorem sanitiseUser_keys (bad : String) (fields : List String) (fuel : Nat)
    (attrs : List (String × FieldVal)) (v : SVal)
    (hmem : (bad, v) ∈ sanitiseUser fuel fields attrs) :
    bad = "id" ∨ bad = "_id" ∨ bad = "name" ∨ bad = "created_at" ∨
      bad = "updated_at" ∨ bad ∈ fields := by
  simp only [sanitiseUser] at hmem
  rcases List.mem_append.mp hmem with hl | hr
  · simp only [basePairs, List.mem_cons, List.not_mem_nil, or_false,
      Prod.mk.injEq] at hl
    rcases hl with ⟨h, _⟩ | ⟨h, _⟩ | ⟨h, _⟩ | ⟨h, _⟩ | ⟨h, _⟩ <;> tauto
  · obtain ⟨f, hfmem, heq⟩ := List.mem_map.mp hr
    injection heq with h1 _
    subst h1
    tauto

theorem sanitiseUser_no_key (bad : String) (fields : List String)
    (hb : ¬ (bad = "id" ∨ bad = "_id" ∨ bad = "name" ∨ bad = "created_at" ∨
      bad = "updated_at"))
    (hf : bad ∉ fields) :
    ∀ fuel attrs, ¬ HasKey bad (SVal.obj (sanitiseUser fuel fields attrs)) := by
  intro fuel
  induction fuel with
  | zero =>
    intro attrs h
    cases h with
    | here hmem =>
      rcases sanitiseUser_keys bad fields 0 attrs _ hmem with
        h | h | h | h | h | h
      · exact hb (Or.inl h)
      · exact hb (Or.inr (Or.inl h))
      · exact hb (Or.inr (Or.inr (Or.inl h)))
      · exact hb (Or.inr (Or.inr (Or.inr (Or.inl h))))
      · exact hb (Or.inr (Or.inr (Or.inr (Or.inr h))))
      · exact hf h
    | inObj hmem hkey =>
      simp only [sanitiseUser] at hmem
      rcases List.mem_append.mp hmem with hl | hr
      · simp only [basePairs, List.mem_cons, List.not_mem_nil, or_false,
          Prod.mk.injEq] at hl
        rcases hl with ⟨_, hv⟩ | ⟨_, hv⟩ | ⟨_, hv⟩ | ⟨_, hv⟩ | ⟨_, hv⟩ <;>
          (subst hv; exact not_hasKey_primOrNull bad _ hkey)
      · obtain ⟨f, hfmem, heq⟩ := List.mem_map.mp hr
        injection heq with _ h2
        subst h2
        exact sanitiseField_zero_no_key bad fields _ hkey
  | succ fm ih =>
    intro attrs h
    cases h with
    | here hmem =>
      rcases sanitiseUser_keys bad fields (fm + 1) attrs _ hmem with
        h | h | h | h | h | h
      · exact hb (Or.inl h)
      · exact hb (Or.inr (Or.inl h))
      · exact hb (Or.inr (Or.inr (Or.inl h)))
      · exact hb (Or.inr (Or.inr (Or.inr (Or.inl h))))
      · exact hb (Or.inr (Or.inr (Or.inr (Or.inr h))))
      · exact hf h
    | inObj hmem hkey =>
      simp only [sanitiseUser] at hmem
      rcases List.mem_append.mp hmem with hl | hr
      · simp only [basePairs, List.mem_cons, List.not_mem_nil, or_false,
          Prod.mk.injEq] at hl
        rcases hl with ⟨_, hv⟩ | ⟨_, hv⟩ | ⟨_, hv⟩ | ⟨_, hv⟩ | ⟨_, hv⟩ <;>
          (subst hv; exact not_hasKey_primOrNull bad _ hkey)
      · obtain ⟨f, hfmem, heq⟩ := List.mem_map.mp hr
        injection heq with _ h2
        subst h2
        exact sanitiseField_succ_no_key bad fields fm ih _ hkey

/-- C4: for every Principal state and every depth bound, provided the
configured public-field list names neither the credential digest `hash`
nor the reset token `token`, the sanitised projection contains neither
`hash` nor `token` under any key, including inside nested sanitised
collaborator objects and arrays of them. -/
theorem sanitise_omits_credentials (fuel : Nat) (fields : List String)
    (attrs : List (String × FieldVal))
    (hhash : "hash" ∉ fields) (htoken : "token" ∉ fields) :
    ¬ HasKey "hash" (SVal.obj (sanitiseUser fuel fields attrs))
    ∧ ¬ HasKey "token" (SVal.obj (sanitiseUser fuel fields attrs)) :=
  ⟨sanitiseUser_no_key "hash" fields (by decide) hhash fuel attrs,
   sanitiseUser_no_key "token" fields (by decide) htoken fuel attrs⟩

/-- Witness for the C4 theorem: a user state that stores a digest, a reset
token and a nested collaborator that itself stores a digest, sanitised
with the public-field list `username, friend`. -/
theorem sanitise_omits_credentials_witness :
    ¬ HasKey "hash" (SVal.obj (sanitiseUser 2 ["username", "friend"]
      [("hash", FieldVal.prim "h0"), ("token", FieldVal.prim "t0"),
       ("username", FieldVal.prim "u"),
       ("friend", FieldVal.collab [("hash", FieldVal.prim "h1")])]))
    ∧ ¬ HasKey "token" (SVal.obj (sanitiseUser 2 ["username", "friend"]
      [("hash", FieldVal.prim "h0"), ("token", FieldVal.prim "t0"),
       ("username", FieldVal.prim "u"),
       ("friend", FieldVal.collab [("hash", FieldVal.prim "h1")])])) :=
  sanitise_omits_credentials 2 ["username", "friend"]
    [("hash", FieldVal.prim "h0"), ("token", FieldVal.prim "t0"),
     ("username", FieldVal.prim "u"),
     ("friend", FieldVal.collab [("hash", FieldVal.prim "h1")])]
    (by decide) (by decide)
